import Mathlib

/- Verification of the raster alignment, compositing and valid-extent
cropping engine of the efast-tool pipeline.  The development shallowly
embeds the row scanner and the cropper of post_process.py, the per-date
compositing of prepare_s3, the fusion date loop of run_efast, the seasonal
cloud flagger of clouds.py, the exclusion-set loader, the nearest-date
matcher and the cloud-distance field of prepare_s2.  Machine floats are
modelled as exact rationals, NaN as the missing value of an Option, and
file names, error messages and file contents as natural numbers. -/

namespace EfastTool

attribute [local semireducible] Rat.add Rat.sub Rat.mul Rat.inv Rat.ofScientific

/-- Cell of a fused raster: `none` models a NaN (missing) sample, `some v`
a finite value. -/
abbrev Cell := Option ℚ

/-- Row of a fused raster as scanned by `process_cropped`: the cells of the
slice `data[:, row_idx, :]`, every band and column at one row index. -/
abbrev Row := List Cell

/-- Translation of the per-row test in `post_process.process_cropped`:
`np.any(~np.isnan(data[:, row_idx, :]) & (data[:, row_idx, :] > 0.001))`,
that is, the row holds a non-missing value strictly greater than `0.001`.
Note the comparison is signed, not on the magnitude. -/
def rowValid (r : Row) : Bool :=
  r.any fun c =>
    match c with
    | some v => decide (v > 1 / 1000)
    | none => false

/-- Modelled from the claim wording of C2: a row holding at least one
non-missing value whose magnitude exceeds `0.001`. -/
def rowValidMag (r : Row) : Bool :=
  r.any fun c =>
    match c with
    | some v => decide (|v| > 1 / 1000)
    | none => false

/-- Row consisting only of missing (NaN) cells. -/
def rowAllMissing (r : Row) : Bool :=
  r.all fun c => c.isNone

/-- Index of the last row satisfying `p`, if any.  The Python loop
`for row_idx in range(height - 1, -1, -1)` with a `break` on the first hit
returns the greatest index whose row passes the test. -/
def lastIdxP (p : Row → Bool) : List Row → Option ℕ
  | [] => none
  | r :: rs =>
    match lastIdxP p rs with
    | some i => some (i + 1)
    | none => if p r then some 0 else none

/-- Bottom-up scan of `process_cropped` parameterised by the row test:
the greatest index of a row passing `p`, and the height when none does
(the initialisation `first_valid_row = height`). -/
def firstValidRowP (p : Row → Bool) (rows : List Row) : ℕ :=
  (lastIdxP p rows).getD rows.length

/-- Scanner of `process_cropped` with the row test of the source. -/
def firstValidRow (rows : List Row) : ℕ :=
  firstValidRowP rowValid rows

/-- Geometry of a source raster opened by `_crop_to_bounds`: pixel width
and height, and the four used affine coefficients, with
`x = a * col + c` and `y = e * row + f` (`a > 0`, `e < 0` for north-up
rasters; `a` is `transform[0]`, `e` is `transform[4]`, `c` is
`transform[2]`, `f` is `transform[5]`). -/
structure SrcMeta where
  w : ℤ
  h : ℤ
  a : ℚ
  e : ℚ
  c : ℚ
  f : ℚ
deriving DecidableEq

/-- Geographic bounds (left, bottom, right, top). -/
structure CBounds where
  l : ℚ
  b : ℚ
  r : ℚ
  t : ℚ
deriving DecidableEq

/-- Outcome of `_crop_to_bounds`: the `WindowError` raised by
`window.intersection` on disjoint windows, the `return False` branch, or a
written output file.  A written output spans exactly the bounds rebuilt by
`rasterio.transform.from_bounds(crop_left, bottom_y, crop_right, crop_top,
window.width, window.height)`, recorded here with the clipped pixel width
and height. -/
inductive CropResult where
  | windowError
  | skipped
  | written (bounds : CBounds) (w h : ℤ)
deriving DecidableEq

/-- Floor of a rational as an integer, written with floor division of the
numerator by the denominator so that it evaluates by kernel reduction. -/
def ratFloor (q : ℚ) : ℤ :=
  Int.fdiv q.num (q.den : ℤ)

/-- Python 3 `int(round(x))`: round to the nearest integer with ties to the
even neighbour (the model rounds the exact rational). -/
def pyRound (q : ℚ) : ℤ :=
  let n := ratFloor q
  let fr := q - n
  if fr < 1 / 2 then n
  else if 1 / 2 < fr then n + 1
  else if n % 2 = 0 then n else n + 1

/-- Window computed by `_crop_to_bounds` before clipping, as
(column offset, row offset, width, height), together with the bottom
coordinate `bottom_y` used for the output transform.  With
`row_based_height = n` the window is `Window(round(col_off), 0, src.width,
n)` and `bottom_y = transform[5] + n * transform[4]`; otherwise width and
height are rounded from the bounds over `abs(transform[0])`, the offsets
are rounded from `windows.from_bounds`, and `bottom_y = crop_bottom`. -/
def cropWindow (src : SrcMeta) (bd : CBounds) (rbh : Option ℤ) :
    (ℤ × ℤ × ℤ × ℤ) × ℚ :=
  let colOff0 : ℚ := (bd.l - src.c) / src.a
  match rbh with
  | some n => ((pyRound colOff0, 0, src.w, n), src.f + (n : ℚ) * src.e)
  | none =>
    let px : ℚ := |src.a|
    let cw : ℤ := pyRound ((bd.r - bd.l) / px)
    let ch : ℤ := pyRound ((bd.t - bd.b) / px)
    let rowOff0 : ℚ := (bd.t - src.f) / src.e
    ((pyRound colOff0, pyRound rowOff0, cw, ch), bd.b)

/-- Intersect test used by `rasterio.windows.intersection` between the crop
window and the full source window `Window(0, 0, src.width, src.height)`:
the half-open ranges must strictly overlap on both axes, otherwise a
`WindowError` is raised. -/
def windowsIntersect (src : SrcMeta) (win : ℤ × ℤ × ℤ × ℤ) : Bool :=
  decide (win.1 < src.w) && decide (0 < win.1 + win.2.2.1) &&
    decide (win.2.1 < src.h) && decide (0 < win.2.1 + win.2.2.2)

/-- Width of the crop window clipped to the source window. -/
def clippedW (src : SrcMeta) (win : ℤ × ℤ × ℤ × ℤ) : ℤ :=
  min (win.1 + win.2.2.1) src.w - max win.1 0

/-- Height of the crop window clipped to the source window. -/
def clippedH (src : SrcMeta) (win : ℤ × ℤ × ℤ × ℤ) : ℤ :=
  min (win.2.1 + win.2.2.2) src.h - max win.2.1 0

/-- Translation of `_crop_to_bounds` in `post_process.py`.  The source
intersects the window with the source extent (raising `WindowError` when
they are disjoint), returns `False` when the clipped window is degenerate
(the `not window` test is constant false, a rasterio `Window` being always
truthy), and otherwise writes an output whose transform is rebuilt from
`(crop_left, bottom_y, crop_right, crop_top)` over the clipped size, so the
written raster spans exactly those geographic bounds. -/
def cropToBounds (src : SrcMeta) (bd : CBounds) (rbh : Option ℤ) : CropResult :=
  let win := (cropWindow src bd rbh).1
  let bottomY := (cropWindow src bd rbh).2
  if windowsIntersect src win then
    if clippedW src win ≤ 0 ∨ clippedH src win ≤ 0 then CropResult.skipped
    else CropResult.written ⟨bd.l, bottomY, bd.r, bd.t⟩ (clippedW src win) (clippedH src win)
  else CropResult.windowError

/-- Per-date core of `process_cropped`: scan the fusion raster bottom-up
for the last valid row, derive `valid_bottom_y` from the fusion transform,
raise the DIST_CLOUD bottom to it (`crop_bottom = max(dist_bounds.bottom,
valid_bottom_y)`), and apply the resulting window to the prepared S2
product, the S3 composite, and the fusion product, the last with
`row_based_height = first_valid_row + 1`. -/
def processCroppedDate (dist : CBounds) (fus : SrcMeta) (rows : List Row)
    (s2 s3 : SrcMeta) : CropResult × CropResult × CropResult :=
  let fvr : ℤ := (firstValidRow rows : ℤ)
  let vby : ℚ := fus.f + ((fvr + 1 : ℤ) : ℚ) * fus.e
  let cb : CBounds := ⟨dist.l, max dist.b vby, dist.r, dist.t⟩
  (cropToBounds s2 cb none, cropToBounds s3 cb none,
    cropToBounds fus cb (some (fvr + 1)))

/-- Pixel grid of one coarse acquisition: `r p b` is the value of band `b`
at (flattened) pixel index `p`, `none` modelling NaN. -/
abbrev CRaster := ℕ → ℕ → Option ℚ

/-- Mean of the non-missing values of a list, `none` when all are missing:
the semantics of `np.nanmean` along an axis. -/
def nanmeanList (l : List (Option ℚ)) : Option ℚ :=
  let vs := l.filterMap id
  if vs.isEmpty then none else some (vs.sum / (vs.length : ℚ))

/-- Band values of one pixel of a member with `nb` bands. -/
def bandsAt (nb : ℕ) (r : CRaster) (p : ℕ) : List (Option ℚ) :=
  (List.range nb).map fun b => r p b

/-- Per-member outlier mask of `prepare_s3`:
`data[:, np.abs(np.nanmean(data, axis=0)) >= 5] = np.nan` sets every band
of a pixel to missing when the absolute per-pixel mean across the member
bands is at least 5; a pixel whose band mean is NaN stays unmasked since
`nan >= 5` is false in numpy. -/
def maskMember (nb : ℕ) (r : CRaster) : CRaster := fun p b =>
  match nanmeanList (bandsAt nb r p) with
  | none => r p b
  | some m => if 5 ≤ |m| then none else r p b

/-- Stack mean `np.nanmean(np.array(s3_stack), axis=0)` over the masked
members, per pixel and band. -/
def compositeStack (nb : ℕ) (members : List CRaster) : CRaster := fun p b =>
  nanmeanList (members.map fun r => maskMember nb r p b)

/-- Composite of a multi-acquisition date group in `call_efast.prepare_s3`,
the module imported by `run.py`: the members are read raw, masked and
averaged, and the resulting composite raster is reprojected onto the
shared grid afterwards, in the second loop of the function. -/
def prepareS3CompositeCall (reproj : CRaster → CRaster) (nb : ℕ)
    (members : List CRaster) : CRaster :=
  reproj (compositeStack nb members)

/-- Composite of a multi-acquisition date group in `efast.prepare_s3`: each
member is first read through a `WarpedVRT` onto the shared reference grid,
then masked and averaged. -/
def prepareS3CompositeEfast (reproj : CRaster → CRaster) (nb : ℕ)
    (members : List CRaster) : CRaster :=
  compositeStack nb (members.map reproj)

/-- File store of one product directory: content of the produced file per
date key, `none` when the file does not exist. -/
abbrev Store := ℤ → Option ℕ

/-- Date loop of `run_efast` in `call_efast.py`: the external fusion
operation is invoked for every date of the range, with no check whether
`REFL_<date>.tif` already exists. -/
def runEfastCall (fusion : ℤ → Store → Store) (dates : List ℤ) (st : Store) :
    Store :=
  dates.foldl (fun s d => fusion d s) st

/-- Date loop of `run_efast` in `efast.py`: a date whose output file exists
is skipped (`if output_file.exists(): continue`) and the fusion operation
is not invoked for it. -/
def runEfastSkip (fusion : ℤ → Store → Store) (dates : List ℤ) (st : Store) :
    Store :=
  dates.foldl (fun s d => if (s d).isSome then s else fusion d s) st

/-- File loop of `prepare_s2` in `call_efast.py`, keyed by the REFL
destination of each acquisition: a file whose output exists is skipped
(`if refl_dst.exists(): continue`), otherwise it is processed. -/
def prepareS2Loop (process : ℕ → (ℕ → Option ℕ) → (ℕ → Option ℕ))
    (files : List ℕ) (st : ℕ → Option ℕ) : ℕ → Option ℕ :=
  files.foldl (fun s fl => if (s fl).isSome then s else process fl s) st

/-- Log line printed by the fusion date loop. -/
inductive LogEntry where
  | saved (d : ℤ)
  | noOutput (d : ℤ)
  | errorLogged (d : ℤ) (msg : ℕ)
deriving DecidableEq

/-- Date loop of `run_efast` with the external operation abstracted as a
fallible action: `Except.error m` models a raised exception (message `m`),
`Except.ok true` a run that wrote the output file, `Except.ok false` a run
that wrote nothing.  The `try`/`except Exception` of the source catches a
raised exception, logs it and continues with the next date. -/
def runEfastLog (fusion : ℤ → Except ℕ Bool) : List ℤ → List LogEntry
  | [] => []
  | d :: ds =>
    (match fusion d with
      | Except.ok true => LogEntry.saved d
      | Except.ok false => LogEntry.noOutput d
      | Except.error m => LogEntry.errorLogged d m) :: runEfastLog fusion ds

/-- Raw time-series record of `timeseries.json`: day number, index value
(`none` when null) and a file identifier. -/
structure Sample where
  day : ℤ
  ndvi : Option ℚ
  filename : ℕ
deriving DecidableEq

/-- Non-null entry kept by `detect_clouds`. -/
structure Entry where
  day : ℤ
  val : ℚ
  filename : ℕ
deriving DecidableEq

/-- Pre-filtering of `detect_clouds`: keep the samples whose index value is
not null. -/
def toEntries (samples : List Sample) : List Entry :=
  samples.filterMap fun s => s.ndvi.map fun v => ⟨s.day, v, s.filename⟩

/-- Window values of one entry: the values of all entries within
`WINDOW_DAYS = 14` days of its date by absolute day difference, the entry
itself included. -/
def windowVals (entries : List Entry) (e : Entry) : List ℚ :=
  (entries.filter fun e2 => (e2.day - e.day).natAbs ≤ 14).map Entry.val

/-- Per-entry flag test of `detect_clouds`: a window of fewer than
`MIN_WINDOW_SIZE = 3` members is never flagged (`continue`), otherwise the
entry is flagged iff its value is below the window maximum minus
`NDVI_DELTA = 0.15` and below `NDVI_THRESHOLD = 0.3`. -/
def flaggedB (entries : List Entry) (e : Entry) : Bool :=
  match windowVals entries e with
  | [] => false
  | v :: vs =>
    if (v :: vs).length < 3 then false
    else decide (e.val < vs.foldl max v - 3 / 20) && decide (e.val < 3 / 10)

/-- Flagged file identifiers collected by `detect_clouds` for one sensor. -/
def detectClouds (samples : List Sample) : List ℕ :=
  ((toEntries samples).filter fun e => flaggedB (toEntries samples) e).map
    Entry.filename

/-- Parsed content of `clouds.json`: each sensor key may be absent. -/
structure CloudsJson where
  s2 : Option (List ℕ)
  s3 : Option (List ℕ)
deriving DecidableEq

/-- Translation of `_load_clouds`: a missing file yields empty exclusion
sets for both sensors, and an absent key of an existing file defaults to
the empty set (`clouds_data.get(key, [])`). -/
def loadClouds : Option CloudsJson → List ℕ × List ℕ
  | none => ([], [])
  | some j => (j.s2.getD [], j.s3.getD [])

/-- Acquisition filter of `prepare_s2` and `prepare_s3`: keep the files
whose name is not in the exclusion set. -/
def usableFiles (excl : List ℕ) (files : List ℕ) : List ℕ :=
  files.filter fun fl => !(excl.contains fl)

/-- Absolute day distance used by `find_closest_dist_cloud`:
`abs((d - target_date).days)`. -/
def dayDist (target d : ℤ) : ℕ :=
  (d - target).natAbs

/-- Python `min(iterable, key=key)`: fold keeping the current best unless a
later element has a strictly smaller key, hence returning the first
element attaining the minimal key. -/
def pyMinBy (key : ℤ → ℕ) : ℤ → List ℤ → ℤ
  | cur, [] => cur
  | cur, y :: ys => pyMinBy key (if key y < key cur then y else cur) ys

/-- Translation of `find_closest_dist_cloud` in `post_process.py`:
`min(dist_cloud_dates, key=lambda d: abs((d - target_date).days))` over the
ascending-sorted list of available DIST_CLOUD dates. -/
def findClosestDate (target : ℤ) : List ℤ → Option ℤ
  | [] => none
  | d :: ds => some (pyMinBy (dayDist target) d ds)

/-- First-band value of the prepared fine raster at row `i`, column `j`
(out-of-range reads default to 0, which `prepare_s2` treats as nodata). -/
def bandValue (g : List (List ℚ)) (i j : ℕ) : ℚ :=
  (g.getD i []).getD j 0

/-- Validity of a pixel in `prepare_s2`: `mask = s2_hr == 0` marks value 0
as invalid, every other value as valid. -/
def validAt (g : List (List ℚ)) (i j : ℕ) : Bool :=
  !(decide (bandValue g i j = 0))

/-- Positions of the invalid (value 0) pixels of the grid. -/
def invalidPositions (g : List (List ℚ)) : List (ℕ × ℕ) :=
  (g.enum.map fun p =>
    p.2.enum.filterMap fun q =>
      if q.2 = 0 then some (p.1, q.1) else none).flatten

/-- Squared Euclidean distance between two pixel positions. -/
def sqDist (p q : ℕ × ℕ) : ℕ :=
  ((p.1 : ℤ) - q.1).natAbs ^ 2 + ((p.2 : ℤ) - q.2).natAbs ^ 2

/-- Squared distance field computed by `prepare_s2`:
`scipy.ndimage.distance_transform_edt(~mask)` with `mask = s2_hr == 0`
yields 0 at every invalid pixel (a zero element of the input) and, at a
valid pixel, the Euclidean distance to the nearest invalid pixel.  The
square of that field is modelled, since the subsequent clip commutes with
the square root (`min (sqrt s) 255 = sqrt (min s 65025)`); the all-valid
grid (no invalid pixel anywhere) is excluded by the statements below. -/
def edtSq (g : List (List ℚ)) (i j : ℕ) : ℕ :=
  if bandValue g i j = 0 then 0
  else
    match invalidPositions g with
    | [] => 0
    | p :: ps => (ps.map (sqDist (i, j))).foldl min (sqDist (i, j) p)

/-- Test that pixel `(i, j)` and its eight neighbours are all valid, for
`1 ≤ i` and `1 ≤ j` (the claim only uses interior pixels). -/
def surrounded8 (g : List (List ℚ)) (i j : ℕ) : Bool :=
  validAt g i j &&
    validAt g (i - 1) (j - 1) && validAt g (i - 1) j && validAt g (i - 1) (j + 1) &&
    validAt g i (j - 1) && validAt g i (j + 1) &&
    validAt g (i + 1) (j - 1) && validAt g (i + 1) j && validAt g (i + 1) (j + 1)

/-- A 5 by 5 all-valid grid with a single invalid pixel at its centre. -/
def grid5 : List (List ℚ) :=
  [[1, 1, 1, 1, 1], [1, 1, 1, 1, 1], [1, 1, 0, 1, 1], [1, 1, 1, 1, 1],
    [1, 1, 1, 1, 1]]

/-- A 5 by 5 grid whose only invalid pixel sits at the corner (4, 4), so
pixel (1, 1) is strictly surrounded by valid pixels. -/
def gridA : List (List ℚ) :=
  [[1, 1, 1, 1, 1], [1, 1, 1, 1, 1], [1, 1, 1, 1, 1], [1, 1, 1, 1, 1],
    [1, 1, 1, 1, 0]]

/-- Fusion raster geometry for the crop examples: a 5 by 20 grid with
unit pixels, left edge x = 0 and top edge y = 20 (bottom edge y = 0). -/
def fusMetaEx : SrcMeta :=
  ⟨5, 20, 1, -1, 0, 20⟩

/-- Twenty all-valid fusion rows for the crop examples. -/
def rowsEx : List Row :=
  List.replicate 20 [some 1]

/-- DIST_CLOUD bounds aligned with the fusion grid. -/
def distAligned : CBounds :=
  ⟨0, 0, 5, 20⟩

/-- DIST_CLOUD bounds whose bottom edge (y = 10) lies above the bottom of
the fusion grid (y = 0). -/
def distShifted : CBounds :=
  ⟨0, 10, 5, 20⟩

/-- Source raster for the degenerate-window example: 10 by 10 unit grid at
the origin. -/
def srcBase : SrcMeta :=
  ⟨10, 10, 1, -1, 0, 0⟩

/-- Crop bounds of zero geographic width strictly inside `srcBase`. -/
def bdDegenerate : CBounds :=
  ⟨3, -5, 3, 0⟩

/-- Crop bounds entirely to the left of `srcBase`. -/
def bdDisjoint : CBounds :=
  ⟨-50, -5, -45, 0⟩

/-- First raw member of the compositing counterexample: band 0 holds 12 at
pixel 0 and 0 elsewhere. -/
def memberA : CRaster := fun p _ =>
  if p = 0 then some 12 else some 0

/-- Second raw member of the compositing counterexample: band 0 holds 2 at
pixel 0 and 4 elsewhere. -/
def memberB : CRaster := fun p _ =>
  if p = 0 then some 2 else some 4

/-- Concrete resampling operator for the compositing counterexample: each
target pixel is the mean of two adjacent source pixels, a linear kernel in
the spirit of the area and cubic kernels of the source. -/
def pairAvg : CRaster → CRaster := fun r p b =>
  nanmeanList [r (2 * p) b, r (2 * p + 1) b]

/-- Fusion operation for the idempotence counterexample: running it for
date `d` rewrites the output of `d` with its previous content plus one. -/
def fusionBump : ℤ → Store → Store := fun d s x =>
  if x = d then some ((s d).getD 0 + 1) else s x

/-- Store holding an already-produced output (content 1) for date 0. -/
def stExisting : Store := fun x =>
  if x = 0 then some 1 else none

/-- Fusion action for the error-isolation witness: date 2 raises an
exception with message 7, every other date writes its output. -/
def fusionRaises : ℤ → Except ℕ Bool := fun d =>
  if d = 2 then Except.error 7 else Except.ok true

/-- Time series for the cloud-flagger witness: index values 0.8, 0.2 and
0.82 on three consecutive days, none of them null. -/
def sampleList : List Sample :=
  [⟨0, some (4 / 5), 1⟩, ⟨1, some (1 / 5), 2⟩, ⟨2, some (41 / 50), 3⟩]

/-- Bottom coordinate selected by `_crop_to_bounds` without a row-based
height: the crop bottom itself. -/
theorem cropWindow_snd_none (src : SrcMeta) (bd : CBounds) :
    (cropWindow src bd none).2 = bd.b := rfl

/-- Bottom coordinate selected by `_crop_to_bounds` with a row-based
height `n`: derived from the source transform as `f + n * e`. -/
theorem cropWindow_snd_some (src : SrcMeta) (bd : CBounds) (n : ℤ) :
    (cropWindow src bd (some n)).2 = src.f + (n : ℚ) * src.e := rfl

/-- Geographic bounds of an output written by `_crop_to_bounds`: exactly
the crop bounds, with the bottom replaced by the selected `bottom_y`. -/
theorem cropToBounds_written (src : SrcMeta) (bd : CBounds) (rbh : Option ℤ)
    (bb : CBounds) (w h : ℤ)
    (hw : cropToBounds src bd rbh = CropResult.written bb w h) :
    bb = ⟨bd.l, (cropWindow src bd rbh).2, bd.r, bd.t⟩ := by
  simp only [cropToBounds] at hw
  split at hw
  · split at hw
    · exact CropResult.noConfusion hw
    · simp only [CropResult.written.injEq] at hw
      exact hw.1.symm
  · exact CropResult.noConfusion hw

/-- C1: the cropper applied to the fine, coarse and fused products of one
date writes outputs sharing left, right and top bounds; the fine and
coarse outputs also share the common crop bottom, while the fused output
bottom is derived from the fusion transform and the scanned row, so all
three bounds coincide exactly when that fusion-derived bottom is not below
the DIST_CLOUD bottom. -/
theorem c1_theorem (dist : CBounds) (fus : SrcMeta) (rows : List Row)
    (s2 s3 : SrcMeta) (b2 b3 bf : CBounds) (w2 h2 w3 h3 wf hf : ℤ)
    (hrun : processCroppedDate dist fus rows s2 s3 =
      (CropResult.written b2 w2 h2, CropResult.written b3 w3 h3,
        CropResult.written bf wf hf)) :
    b2 = b3 ∧ bf.l = b2.l ∧ bf.r = b2.r ∧ bf.t = b2.t ∧
      bf.b = fus.f + ((((firstValidRow rows : ℤ) + 1 : ℤ)) : ℚ) * fus.e ∧
      (dist.b ≤ fus.f + ((((firstValidRow rows : ℤ) + 1 : ℤ)) : ℚ) * fus.e →
        b2 = bf) := by
  simp only [processCroppedDate, Prod.mk.injEq] at hrun
  obtain ⟨ha, hb, hc⟩ := hrun
  have e2 := cropToBounds_written _ _ _ _ _ _ ha
  have e3 := cropToBounds_written _ _ _ _ _ _ hb
  have ef := cropToBounds_written _ _ _ _ _ _ hc
  rw [cropWindow_snd_none] at e2 e3
  rw [cropWindow_snd_some] at ef
  subst e2; subst e3; subst ef
  refine ⟨rfl, rfl, rfl, rfl, rfl, ?_⟩
  intro hle
  rw [max_eq_right hle]

/-- C1 witness: with the fusion grid bottom aligned to the DIST_CLOUD
bottom, all three written outputs share identical geographic bounds. -/
theorem c1_witness :
    processCroppedDate distAligned fusMetaEx rowsEx fusMetaEx fusMetaEx =
      (CropResult.written ⟨0, 0, 5, 20⟩ 5 20, CropResult.written ⟨0, 0, 5, 20⟩ 5 20,
        CropResult.written ⟨0, 0, 5, 20⟩ 5 20) ∧
      (⟨0, 0, 5, 20⟩ : CBounds) = ⟨0, 0, 5, 20⟩ := by
  have h := c1_theorem distAligned fusMetaEx rowsEx fusMetaEx fusMetaEx
    ⟨0, 0, 5, 20⟩ ⟨0, 0, 5, 20⟩ ⟨0, 0, 5, 20⟩ 5 20 5 20 5 20 (by decide)
  exact ⟨by decide, h.2.2.2.2.2 (by decide)⟩

/-- C1 counterexample: when the DIST_CLOUD bottom (y = 10) lies above the
fusion valid bottom (y = 0), the fine and coarse outputs span bottom 10
while the fused output spans bottom 0, so the three successfully written
outputs do not share identical geographic bounds. -/
theorem c1_counterexample :
    processCroppedDate distShifted fusMetaEx rowsEx fusMetaEx fusMetaEx =
      (CropResult.written ⟨0, 10, 5, 20⟩ 5 10, CropResult.written ⟨0, 10, 5, 20⟩ 5 10,
        CropResult.written ⟨0, 0, 5, 20⟩ 5 20) ∧
      ((⟨0, 0, 5, 20⟩ : CBounds) ≠ ⟨0, 10, 5, 20⟩) := by
  exact ⟨by decide, by decide⟩

/-- C4: re-running a stage with outputs already present is a no-op for the
skip-guarded loops (the REFL loop of `prepare_s2` and the date loop of
`run_efast` in `efast.py`), while the date loop of `run_efast` in
`call_efast.py` invokes the external fusion operation unconditionally,
with no existence check. -/
theorem c4_theorem :
    (∀ (fusion : ℤ → Store → Store) (dates : List ℤ) (st : Store),
      (∀ d ∈ dates, (st d).isSome) → runEfastSkip fusion dates st = st) ∧
    (∀ (process : ℕ → (ℕ → Option ℕ) → ℕ → Option ℕ) (files : List ℕ)
      (st : ℕ → Option ℕ),
      (∀ fl ∈ files, (st fl).isSome) → prepareS2Loop process files st = st) ∧
    (∀ (fusion : ℤ → Store → Store) (d : ℤ) (st : Store),
      runEfastCall fusion [d] st = fusion d st) := by
  refine ⟨?_, ?_, ?_⟩
  · intro fusion dates
    induction dates with
    | nil => intro st _; rfl
    | cons d ds ih =>
      intro st hst
      have hd : (st d).isSome = true := hst d (List.mem_cons_self d ds)
      have hstep : runEfastSkip fusion (d :: ds) st = runEfastSkip fusion ds st := by
        simp [runEfastSkip, hd]
      rw [hstep]
      exact ih st fun x hx => hst x (List.mem_cons_of_mem d hx)
  · intro process files
    induction files with
    | nil => intro st _; rfl
    | cons fl fs ih =>
      intro st hst
      have hd : (st fl).isSome = true := hst fl (List.mem_cons_self fl fs)
      have hstep : prepareS2Loop process (fl :: fs) st = prepareS2Loop process fs st := by
        simp [prepareS2Loop, hd]
      rw [hstep]
      exact ih st fun x hx => hst x (List.mem_cons_of_mem fl hx)
  · intro fusion d st
    rfl

/-- C4 witness: the skip-guarded loop leaves a store with an existing
output unchanged, and the unguarded loop of `call_efast.run_efast` applies
the fusion operation to it. -/
theorem c4_witness :
    runEfastSkip fusionBump [0] stExisting = stExisting ∧
    runEfastCall fusionBump [0] stExisting = fusionBump 0 stExisting := by
  exact ⟨c4_theorem.1 fusionBump [0] stExisting (by decide),
    c4_theorem.2.2 fusionBump 0 stExisting⟩

/-- C4 counterexample: date 0 already has an output (content 1), yet
re-running the `call_efast.run_efast` loop with a fusion operation that
rewrites the file changes the stored output to content 2, so the re-run is
not a no-op for that date key. -/
theorem c4_counterexample :
    (stExisting 0).isSome = true ∧
    runEfastCall fusionBump [0] stExisting 0 = some 2 ∧
    stExisting 0 = some 1 ∧
    runEfastCall fusionBump [0] stExisting 0 ≠ stExisting 0 := by
  exact ⟨rfl, rfl, rfl, by decide⟩

/-- C5: in the field computed by `prepare_s2`, every invalid pixel (first
band value 0) has distance 0, and in a 5 by 5 all-valid block with a
single invalid centre pixel, the four edge-adjacent valid neighbours of
the centre have distance 1 (squared distance 1) before clipping. -/
theorem c5_theorem :
    (∀ (g : List (List ℚ)) (i j : ℕ), bandValue g i j = 0 → edtSq g i j = 0) ∧
    edtSq grid5 2 2 = 0 ∧ edtSq grid5 1 2 = 1 ∧ edtSq grid5 3 2 = 1 ∧
      edtSq grid5 2 1 = 1 ∧ edtSq grid5 2 3 = 1 := by
  refine ⟨?_, by decide, by decide, by decide, by decide, by decide⟩
  intro g i j h
  simp [edtSq, h]

/-- C5 witness: the single invalid centre pixel of `grid5` has value 0 and
distance 0. -/
theorem c5_witness :
    bandValue grid5 2 2 = 0 ∧ edtSq grid5 2 2 = 0 := by
  exact ⟨by decide, c5_theorem.1 grid5 2 2 (by decide)⟩

/-- C5 counterexample: pixel (1, 1) of `gridA` is valid and strictly
surrounded by valid pixels yet has squared distance 18 (distance not 0,
against the first part of the claim), and the single invalid centre of the
otherwise valid 5 by 5 `grid5` has distance 0, not 1 (against the second
part): the source computes `distance_transform_edt(~mask)`, the distance
of a valid pixel to the nearest invalid pixel, not the distance over the
invalid set to the nearest valid pixel. -/
theorem c5_counterexample :
    surrounded8 gridA 1 1 = true ∧ edtSq gridA 1 1 = 18 ∧ edtSq gridA 1 1 ≠ 0 ∧
      invalidPositions grid5 = [(2, 2)] ∧ edtSq grid5 2 2 = 0 ∧
      edtSq grid5 2 2 ≠ 1 := by
  exact ⟨by decide, by decide, by decide, by decide, by decide, by decide⟩

/-- Concatenation rule of the fusion date loop. -/
theorem runEfastLog_append (fusion : ℤ → Except ℕ Bool) (xs ys : List ℤ) :
    runEfastLog fusion (xs ++ ys) =
      runEfastLog fusion xs ++ runEfastLog fusion ys := by
  induction xs with
  | nil => rfl
  | cons d ds ih =>
    simp only [List.cons_append, runEfastLog]
    exact congrArg _ ih

/-- C8: a date whose fusion invocation raises an exception contributes one
logged error entry and the loop continues with the remaining dates
unchanged; a date that writes no output likewise contributes a non-error
entry; every date of the range is processed exactly once. -/
theorem c8_theorem :
    (∀ (fusion : ℤ → Except ℕ Bool) (pre : List ℤ) (d : ℤ) (post : List ℤ)
      (m : ℕ), fusion d = Except.error m →
      runEfastLog fusion (pre ++ d :: post) =
        runEfastLog fusion pre ++
          LogEntry.errorLogged d m :: runEfastLog fusion post) ∧
    (∀ (fusion : ℤ → Except ℕ Bool) (pre : List ℤ) (d : ℤ) (post : List ℤ),
      fusion d = Except.ok false →
      runEfastLog fusion (pre ++ d :: post) =
        runEfastLog fusion pre ++
          LogEntry.noOutput d :: runEfastLog fusion post) ∧
    (∀ (fusion : ℤ → Except ℕ Bool) (dates : List ℤ),
      (runEfastLog fusion dates).length = dates.length) := by
  refine ⟨?_, ?_, ?_⟩
  · intro fusion pre d post m hm
    rw [runEfastLog_append]
    simp [runEfastLog, hm]
  · intro fusion pre d post hm
    rw [runEfastLog_append]
    simp [runEfastLog, hm]
  · intro fusion dates
    induction dates with
    | nil => rfl
    | cons d ds ih => simp [runEfastLog, ih]

/-- C8 witness: with a fusion action raising on date 2, the loop over
dates 1, 2, 3 logs the error for date 2 between the unchanged outcomes of
dates 1 and 3. -/
theorem c8_witness :
    runEfastLog fusionRaises ([1] ++ 2 :: [3]) =
      runEfastLog fusionRaises [1] ++
        LogEntry.errorLogged 2 7 :: runEfastLog fusionRaises [3] := by
  exact c8_theorem.1 fusionRaises [1] 2 [3] 7 rfl

/-- C9: a missing `clouds.json` loads as empty exclusion sets for both
sensors, an existing file with absent keys likewise, and filtering any
list of acquisition files against the empty exclusion set keeps every
file. -/
theorem c9_theorem :
    loadClouds none = ([], []) ∧
    loadClouds (some ⟨none, none⟩) = ([], []) ∧
    (∀ files : List ℕ, usableFiles (loadClouds none).1 files = files) ∧
    (∀ files : List ℕ, usableFiles (loadClouds none).2 files = files) := by
  refine ⟨rfl, rfl, ?_, ?_⟩ <;>
    · intro files
      simp [usableFiles, loadClouds]

/-- C10: whenever the crop window clipped to the source extent is
degenerate (zero or negative width or height), `_crop_to_bounds` writes no
output; it returns `False` when the degenerate window still passes the
rasterio strict-overlap test, and raises `WindowError` when the windows
are disjoint. -/
theorem c10_theorem (src : SrcMeta) (bd : CBounds) (rbh : Option ℤ)
    (hdeg : clippedW src (cropWindow src bd rbh).1 ≤ 0 ∨
      clippedH src (cropWindow src bd rbh).1 ≤ 0) :
    cropToBounds src bd rbh =
      (if windowsIntersect src (cropWindow src bd rbh).1 then CropResult.skipped
        else CropResult.windowError) ∧
    ∀ bb w h, cropToBounds src bd rbh ≠ CropResult.written bb w h := by
  have hkey : cropToBounds src bd rbh =
      if windowsIntersect src (cropWindow src bd rbh).1 then CropResult.skipped
      else CropResult.windowError := by
    simp only [cropToBounds]
    rcases hdeg with h | h <;> simp [h]
  refine ⟨hkey, ?_⟩
  intro bb w h hcontra
  rw [hkey] at hcontra
  by_cases hi : windowsIntersect src (cropWindow src bd rbh).1 = true
  · rw [if_pos hi] at hcontra
    exact CropResult.noConfusion hcontra
  · rw [if_neg hi] at hcontra
    exact CropResult.noConfusion hcontra

/-- C10 witness: a zero-width crop window strictly inside the source
raster makes `_crop_to_bounds` return `False`. -/
theorem c10_witness :
    cropToBounds srcBase bdDegenerate none = CropResult.skipped := by
  exact (c10_theorem srcBase bdDegenerate none (Or.inl (by decide))).1.trans
    (by decide)

/-- C10 counterexample: a crop window entirely left of the source raster
has a degenerate clipped width, yet `_crop_to_bounds` raises `WindowError`
(the rasterio intersection of disjoint windows) instead of returning
`False`. -/
theorem c10_counterexample :
    clippedW srcBase (cropWindow srcBase bdDisjoint none).1 ≤ 0 ∧
    cropToBounds srcBase bdDisjoint none = CropResult.windowError ∧
    cropToBounds srcBase bdDisjoint none ≠ CropResult.skipped := by
  exact ⟨by decide, by decide, by decide⟩

/-- Rows that fail the scan test throughout yield no last index. -/
theorem lastIdxP_all_false (p : Row → Bool) (rows : List Row)
    (hall : ∀ r ∈ rows, p r = false) : lastIdxP p rows = none := by
  induction rows with
  | nil => rfl
  | cons r rs ih =>
    have hrs := ih fun x hx => hall x (List.mem_cons_of_mem r hx)
    simp [lastIdxP, hrs, hall r (List.mem_cons_self r rs)]

/-- A scan returning no index means every row fails the test. -/
theorem lastIdxP_none (p : Row → Bool) (rows : List Row)
    (h : lastIdxP p rows = none) : ∀ r ∈ rows, p r = false := by
  induction rows with
  | nil => intro r hr; cases hr
  | cons r rs ih =>
    intro x hx
    cases hrs : lastIdxP p rs with
    | some i => simp [lastIdxP, hrs] at h
    | none =>
      cases hpr : p r with
      | true => simp [lastIdxP, hrs, hpr] at h
      | false =>
        rcases List.mem_cons.mp hx with rfl | hx2
        · exact hpr
        · exact ih hrs x hx2

/-- A scan returning index `i` means row `i` passes the test and every row
strictly below it (larger index) fails it. -/
theorem lastIdxP_some (p : Row → Bool) (rows : List Row) (i : ℕ)
    (h : lastIdxP p rows = some i) :
    i < rows.length ∧ p (rows.getD i []) = true ∧
      ∀ j, i < j → j < rows.length → p (rows.getD j []) = false := by
  induction rows generalizing i with
  | nil => cases h
  | cons r rs ih =>
    cases hrs : lastIdxP p rs with
    | some k =>
      rw [lastIdxP, hrs] at h
      injection h with h
      subst h
      obtain ⟨h1, h2, h3⟩ := ih k hrs
      refine ⟨by simpa using Nat.succ_lt_succ h1, by simpa using h2, ?_⟩
      intro j hj1 hj2
      cases j with
      | zero => omega
      | succ j2 =>
        have : (r :: rs).getD (j2 + 1) [] = rs.getD j2 [] := rfl
        rw [this]
        exact h3 j2 (by omega) (by simpa using hj2)
    | none =>
      rw [lastIdxP, hrs] at h
      cases hpr : p r with
      | false => rw [hpr, if_neg (by simp)] at h; cases h
      | true =>
        rw [hpr, if_pos rfl] at h
        injection h with h
        subst h
        refine ⟨Nat.succ_pos _, hpr, ?_⟩
        intro j hj1 hj2
        cases j with
        | zero => omega
        | succ j2 =>
          have hget : (r :: rs).getD (j2 + 1) [] = rs.getD j2 [] := rfl
          rw [hget]
          have hj2r : j2 < rs.length := by simpa using hj2
          exact lastIdxP_none p rs hrs _
            (List.getD_eq_getElem rs [] hj2r ▸ List.getElem_mem hj2r)

/-- Appending rows whose suffix scan finds nothing falls back to the
prefix scan. -/
theorem lastIdxP_append_none (p : Row → Bool) (xs ys : List Row)
    (h : lastIdxP p ys = none) : lastIdxP p (xs ++ ys) = lastIdxP p xs := by
  induction xs with
  | nil => exact h
  | cons r rs ih =>
    simp only [List.cons_append, lastIdxP]
    have ih2 : lastIdxP p (rs.append ys) = lastIdxP p rs := ih
    rw [ih2]

/-- Appending rows whose suffix scan finds index `i` shifts that index by
the prefix length. -/
theorem lastIdxP_append_some (p : Row → Bool) (xs ys : List Row) (i : ℕ)
    (h : lastIdxP p ys = some i) :
    lastIdxP p (xs ++ ys) = some (xs.length + i) := by
  induction xs with
  | nil => simpa using h
  | cons r rs ih =>
    simp only [List.cons_append, lastIdxP]
    have ih2 : lastIdxP p (rs.append ys) = some (rs.length + i) := ih
    rw [ih2]
    show some (rs.length + i + 1) = some ((r :: rs).length + i)
    exact congrArg some (by simp only [List.length_cons]; omega)

/-- Rows that all pass the test scan to the last index of the list. -/
theorem lastIdxP_all_true (p : Row → Bool) (rows : List Row)
    (hne : rows ≠ []) (hall : ∀ r ∈ rows, p r = true) :
    lastIdxP p rows = some (rows.length - 1) := by
  induction rows with
  | nil => exact absurd rfl hne
  | cons r rs ih =>
    cases rs with
    | nil => simp [lastIdxP, hall r (List.mem_cons_self r [])]
    | cons r2 rs2 =>
      have h2 := ih (List.cons_ne_nil r2 rs2)
        fun x hx => hall x (List.mem_cons_of_mem r hx)
      have hstep : lastIdxP p (r :: r2 :: rs2) =
          match lastIdxP p (r2 :: rs2) with
          | some i => some (i + 1)
          | none => if p r then some 0 else none := rfl
      rw [hstep, h2]
      show some ((r2 :: rs2).length - 1 + 1) = some ((r :: r2 :: rs2).length - 1)
      exact congrArg some (by simp only [List.length_cons]; omega)

/-- An all-missing row never passes the row test of the source scanner. -/
theorem rowAllMissing_not_valid (r : Row) (h : rowAllMissing r = true) :
    rowValid r = false := by
  induction r with
  | nil => rfl
  | cons c cs ih =>
    rw [rowAllMissing, List.all_cons, Bool.and_eq_true] at h
    cases c with
    | some v => cases h.1
    | none =>
      have := ih h.2
      simpa [rowValid, List.any_cons] using this

/-- C2: the scanner returns the height when no row holds a non-missing
value above 0.001 (signed comparison), and otherwise the greatest index of
a row holding such a value, every lower row (larger index) failing the
test; for a fused raster whose bottom 3 rows are all missing and whose
remaining rows are all valid, the reported index is height minus 4. -/
theorem c2_theorem :
    (∀ rows : List Row,
      (firstValidRow rows = rows.length ∧ ∀ r ∈ rows, rowValid r = false) ∨
      (firstValidRow rows < rows.length ∧
        rowValid (rows.getD (firstValidRow rows) []) = true ∧
        ∀ j, firstValidRow rows < j → j < rows.length →
          rowValid (rows.getD j []) = false)) ∧
    (∀ good bad : List Row, good ≠ [] → (∀ r ∈ good, rowValid r = true) →
      (∀ r ∈ bad, rowAllMissing r = true) → bad.length = 3 →
      firstValidRow (good ++ bad) + 4 = (good ++ bad).length) := by
  constructor
  · intro rows
    cases h : lastIdxP rowValid rows with
    | none =>
      left
      exact ⟨by simp [firstValidRow, firstValidRowP, h],
        lastIdxP_none rowValid rows h⟩
    | some i =>
      right
      have hfv : firstValidRow rows = i := by
        simp [firstValidRow, firstValidRowP, h]
      obtain ⟨h1, h2, h3⟩ := lastIdxP_some rowValid rows i h
      exact ⟨hfv ▸ h1, hfv ▸ h2, hfv ▸ h3⟩
  · intro good bad hne hgood hbad hlen
    have hbad2 : lastIdxP rowValid bad = none :=
      lastIdxP_all_false rowValid bad
        fun r hr => rowAllMissing_not_valid r (hbad r hr)
    have hgood2 : lastIdxP rowValid good = some (good.length - 1) :=
      lastIdxP_all_true rowValid good hne hgood
    have happ := lastIdxP_append_none rowValid good bad hbad2
    rw [hgood2] at happ
    have hg1 : 1 ≤ good.length := by
      cases good with
      | nil => exact absurd rfl hne
      | cons a as => simp
    rw [firstValidRow, firstValidRowP, happ]
    simp only [Option.getD_some, List.length_append, hlen]
    omega

/-- C2 witness: one valid row above three all-missing rows gives index
0 = 4 - 4. -/
theorem c2_witness :
    firstValidRow ([[some 1]] ++ [[none], [none], [none]]) + 4 =
      ([[some 1]] ++ [[none], [none], [none]] : List Row).length := by
  exact c2_theorem.2 [[some 1]] [[none], [none], [none]] (by decide)
    (by decide) (by decide) rfl

/-- C2 counterexample: a single row whose only cell holds the non-missing
value -1 (magnitude above 0.001 but signed value below it) is skipped by
the source scan, which reports height 1 (no valid row), while the
magnitude reading of the claim reports index 0. -/
theorem c2_counterexample :
    firstValidRow [[some (-1)]] = 1 ∧
    firstValidRowP rowValidMag [[some (-1)]] = 0 ∧
    firstValidRow [[some (-1)]] ≠ firstValidRowP rowValidMag [[some (-1)]] := by
  exact ⟨by decide, by decide, by decide⟩

/-- Result of the Python fold is one of the candidates. -/
theorem pyMinBy_mem (key : ℤ → ℕ) (ds : List ℤ) (cur : ℤ) :
    pyMinBy key cur ds ∈ cur :: ds := by
  induction ds generalizing cur with
  | nil => simp [pyMinBy]
  | cons y ys ih =>
    simp only [pyMinBy]
    by_cases h : key y < key cur
    · rw [if_pos h]
      exact List.mem_cons_of_mem cur (ih y)
    · rw [if_neg h]
      rcases List.mem_cons.mp (ih cur) with h2 | h2
      · rw [h2]
        exact List.mem_cons_self cur (y :: ys)
      · exact List.mem_cons_of_mem _ (List.mem_cons_of_mem _ h2)

/-- Result of the Python fold attains the minimal key. -/
theorem pyMinBy_le (key : ℤ → ℕ) (ds : List ℤ) (cur : ℤ) :
    ∀ x ∈ cur :: ds, key (pyMinBy key cur ds) ≤ key x := by
  induction ds generalizing cur with
  | nil =>
    intro x hx
    rcases List.mem_cons.mp hx with rfl | h2
    · exact le_refl _
    · cases h2
  | cons y ys ih =>
    intro x hx
    simp only [pyMinBy]
    by_cases h : key y < key cur
    · rw [if_pos h]
      rcases List.mem_cons.mp hx with hx1 | hx2
      · rw [hx1]
        exact le_trans (ih y y (List.mem_cons_self _ _)) (le_of_lt h)
      · exact ih y x hx2
    · rw [if_neg h]
      rcases List.mem_cons.mp hx with hx1 | hx2
      · rw [hx1]
        exact ih cur cur (List.mem_cons_self _ _)
      · rcases List.mem_cons.mp hx2 with hx3 | hx3
        · rw [hx3]
          exact le_trans (ih cur cur (List.mem_cons_self _ _)) (le_of_not_lt h)
        · exact ih cur x (List.mem_cons_of_mem _ hx3)

/-- The fold only replaces its accumulator on a strict key decrease, so a
result with the key of the accumulator is the accumulator itself. -/
theorem pyMinBy_eq_of_key_eq (key : ℤ → ℕ) (ds : List ℤ) (cur : ℤ)
    (h : key (pyMinBy key cur ds) = key cur) : pyMinBy key cur ds = cur := by
  induction ds generalizing cur with
  | nil => rfl
  | cons y ys ih =>
    simp only [pyMinBy] at h ⊢
    by_cases hk : key y < key cur
    · rw [if_pos hk] at h ⊢
      have hle := pyMinBy_le key ys y y (List.mem_cons_self _ _)
      omega
    · rw [if_neg hk] at h ⊢
      exact ih cur h

/-- On an ascending-sorted candidate list the fold returns the numerically
smallest candidate among those attaining the minimal key. -/
theorem pyMinBy_first_min (key : ℤ → ℕ) (ds : List ℤ) (cur : ℤ)
    (hs : (cur :: ds).Pairwise (fun a b => a ≤ b)) :
    ∀ x ∈ cur :: ds, key x = key (pyMinBy key cur ds) →
      pyMinBy key cur ds ≤ x := by
  induction ds generalizing cur with
  | nil =>
    intro x hx _
    rcases List.mem_cons.mp hx with rfl | h2
    · exact le_refl _
    · cases h2
  | cons y ys ih =>
    intro x hx hkey
    simp only [pyMinBy] at hkey ⊢
    rcases List.pairwise_cons.mp hs with ⟨hcur, hys⟩
    by_cases hk : key y < key cur
    · rw [if_pos hk] at hkey ⊢
      rcases List.mem_cons.mp hx with hx1 | hx2
      · have hle := pyMinBy_le key ys y y (List.mem_cons_self _ _)
        rw [hx1] at hkey
        omega
      · exact ih y hys x hx2 hkey
    · rw [if_neg hk] at hkey ⊢
      have hys2 : (cur :: ys).Pairwise (fun a b => a ≤ b) :=
        List.pairwise_cons.mpr
          ⟨fun b hb => hcur b (List.mem_cons_of_mem _ hb),
            (List.pairwise_cons.mp hys).2⟩
      rcases List.mem_cons.mp hx with hx1 | hx2
      · rw [hx1] at hkey ⊢
        exact ih cur hys2 cur (List.mem_cons_self _ _) hkey
      · rcases List.mem_cons.mp hx2 with hx3 | hx3
        · have hle := pyMinBy_le key ys cur cur (List.mem_cons_self _ _)
          rw [hx3] at hkey
          have hcureq : key (pyMinBy key cur ys) = key cur := by omega
          rw [pyMinBy_eq_of_key_eq key ys cur hcureq, hx3]
          exact hcur y (List.mem_cons_self _ _)
        · exact ih cur hys2 x (List.mem_cons_of_mem _ hx3) hkey

/-- C7: on a non-empty ascending-sorted list of available dates,
`find_closest_dist_cloud` returns a member minimising the absolute day
distance to the target, and among equidistant candidates the numerically
lowest one (Python `min` keeps the first, hence earliest, minimiser). -/
theorem c7_theorem (target d : ℤ) (ds : List ℤ)
    (hs : (d :: ds).Pairwise (fun a b => a ≤ b)) :
    findClosestDate target (d :: ds) = some (pyMinBy (dayDist target) d ds) ∧
    pyMinBy (dayDist target) d ds ∈ d :: ds ∧
    (∀ x ∈ d :: ds,
      dayDist target (pyMinBy (dayDist target) d ds) ≤ dayDist target x) ∧
    (∀ x ∈ d :: ds,
      dayDist target x = dayDist target (pyMinBy (dayDist target) d ds) →
        pyMinBy (dayDist target) d ds ≤ x) := by
  exact ⟨rfl, pyMinBy_mem (dayDist target) ds d,
    fun x hx => pyMinBy_le (dayDist target) ds d x hx,
    fun x hx h => pyMinBy_first_min (dayDist target) ds d hs x hx h⟩

/-- C7 witness: dates 8 and 12 are both 2 days from target 10 and the
matcher returns the lower date 8. -/
theorem c7_witness : findClosestDate 10 [8, 12] = some 8 := by
  exact (c7_theorem 10 8 [12] (by decide)).1.trans (by decide)

/-- Head-insensitive lower bound: the fold result bounds its seed. -/
theorem foldl_max_init_le (vs : List ℚ) (v : ℚ) : v ≤ vs.foldl max v := by
  induction vs generalizing v with
  | nil => exact le_refl v
  | cons y ys ih => exact le_trans (le_max_left v y) (ih (max v y))

/-- The fold maximum is one of the seed or the list elements. -/
theorem foldl_max_mem (vs : List ℚ) (v : ℚ) : vs.foldl max v ∈ v :: vs := by
  induction vs generalizing v with
  | nil => exact List.mem_cons_self v []
  | cons y ys ih =>
    simp only [List.foldl_cons]
    rcases List.mem_cons.mp (ih (max v y)) with h | h
    · rcases max_choice v y with h2 | h2 <;> rw [h, h2]
      · exact List.mem_cons_self _ _
      · exact List.mem_cons_of_mem _ (List.mem_cons_self _ _)
    · exact List.mem_cons_of_mem _ (List.mem_cons_of_mem _ h)

/-- The fold maximum bounds the seed and every list element. -/
theorem foldl_max_le (vs : List ℚ) (v : ℚ) :
    ∀ x ∈ v :: vs, x ≤ vs.foldl max v := by
  induction vs generalizing v with
  | nil =>
    intro x hx
    rcases List.mem_cons.mp hx with rfl | h2
    · exact le_refl x
    · cases h2
  | cons y ys ih =>
    intro x hx
    simp only [List.foldl_cons]
    rcases List.mem_cons.mp hx with rfl | hx2
    · exact le_trans (le_max_left x y) (foldl_max_init_le ys (max x y))
    · rcases List.mem_cons.mp hx2 with rfl | hx3
      · exact le_trans (le_max_right v x) (foldl_max_init_le ys (max v x))
      · exact ih (max v y) x (List.mem_cons_of_mem _ hx3)

/-- Every entry is a member of its own window (day difference 0). -/
theorem self_mem_windowVals (entries : List Entry) (e : Entry)
    (he : e ∈ entries) : e.val ∈ windowVals entries e := by
  exact List.mem_map_of_mem Entry.val (List.mem_filter.mpr ⟨he, by simp⟩)

/-- C6: an entry of the pre-filtered per-sensor series is flagged by
`detect_clouds` iff its window (all entries within 14 days by absolute day
difference, itself included) has at least 3 members and its value lies
both more than 0.15 below the window maximum and below 0.3; the flagged
output lists exactly the file identifiers of the flagged entries. -/
theorem c6_theorem (samples : List Sample) (e : Entry)
    (he : e ∈ toEntries samples) :
    (flaggedB (toEntries samples) e = true ↔
      3 ≤ (windowVals (toEntries samples) e).length ∧
        ∃ m, m ∈ windowVals (toEntries samples) e ∧
          (∀ x ∈ windowVals (toEntries samples) e, x ≤ m) ∧
          e.val < m - 3 / 20 ∧ e.val < 3 / 10) ∧
    detectClouds samples =
      ((toEntries samples).filter fun e2 =>
        flaggedB (toEntries samples) e2).map Entry.filename := by
  refine ⟨?_, rfl⟩
  have hmem := self_mem_windowVals (toEntries samples) e he
  cases hw : windowVals (toEntries samples) e with
  | nil => rw [hw] at hmem; cases hmem
  | cons v vs =>
    have hstep : flaggedB (toEntries samples) e =
        (if (v :: vs).length < 3 then false
          else decide (e.val < vs.foldl max v - 3 / 20) &&
            decide (e.val < 3 / 10)) := by
      rw [flaggedB, hw]
    rw [hstep]
    constructor
    · intro hflag
      by_cases hlen : (v :: vs).length < 3
      · rw [if_pos hlen] at hflag
        cases hflag
      · rw [if_neg hlen, Bool.and_eq_true, decide_eq_true_eq,
          decide_eq_true_eq] at hflag
        exact ⟨by omega, vs.foldl max v, foldl_max_mem vs v,
          foldl_max_le vs v, hflag.1, hflag.2⟩
    · rintro ⟨hlen, m, hm, hub, h1, h2⟩
      have hmax_le : m ≤ vs.foldl max v := foldl_max_le vs v m hm
      have hle_max : vs.foldl max v ≤ m := hub _ (foldl_max_mem vs v)
      have hmeq : vs.foldl max v = m := le_antisymm hle_max hmax_le
      rw [if_neg (by omega), Bool.and_eq_true, decide_eq_true_eq,
        decide_eq_true_eq]
      exact ⟨by rw [hmeq]; exact h1, h2⟩

/-- C6 witness: in the series 0.8, 0.2, 0.82 on consecutive days, the 0.2
sample has a 3-member window with maximum 0.82 and is flagged
(0.2 < 0.82 - 0.15 and 0.2 < 0.3). -/
theorem c6_witness : flaggedB (toEntries sampleList) ⟨1, 1 / 5, 2⟩ = true := by
  exact (c6_theorem sampleList ⟨1, 1 / 5, 2⟩ (by decide)).1.mpr
    ⟨by decide, 41 / 50, by decide, by decide, by decide, by decide⟩

/-- Nanmean of a list is missing exactly when every element is missing. -/
theorem nanmeanList_eq_none_iff (l : List (Option ℚ)) :
    nanmeanList l = none ↔ ∀ x ∈ l, x = none := by
  simp only [nanmeanList]
  by_cases hv : (l.filterMap id).isEmpty = true
  · rw [if_pos hv]
    constructor
    · intro _ x hx
      have hnil : l.filterMap id = [] := List.isEmpty_iff.mp hv
      simpa using List.filterMap_eq_nil_iff.mp hnil x hx
    · intro _
      rfl
  · rw [if_neg hv]
    constructor
    · intro h
      cases h
    · intro hall
      exact absurd (by
        rw [List.isEmpty_iff]
        exact List.filterMap_eq_nil_iff.mpr fun a ha => by simpa using hall a ha) hv

/-- A present nanmean value is the sum of the present elements divided by
their count. -/
theorem nanmeanList_some_mul (l : List (Option ℚ)) (m : ℚ)
    (h : nanmeanList l = some m) :
    ((l.filterMap id).length : ℚ) * m = (l.filterMap id).sum := by
  simp only [nanmeanList] at h
  by_cases hv : (l.filterMap id).isEmpty = true
  · rw [if_pos hv] at h
    cases h
  · rw [if_neg hv] at h
    injection h with h
    rw [← h]
    have hne : (l.filterMap id).length ≠ 0 := by
      intro h0
      exact hv (by rwa [List.isEmpty_iff, ← List.length_eq_zero])
    have hq : ((l.filterMap id).length : ℚ) ≠ 0 := Nat.cast_ne_zero.mpr hne
    rw [mul_comm, div_mul_cancel₀ _ hq]

/-- C3: the per-member mask of the Temporal Composite Builder leaves a
pixel unchanged when its band nanmean is missing, masks all its bands to
missing exactly when the absolute band mean is at least 5, and the stacked
composite takes the per-pixel per-band nanmean over the masked members
(missing when all members are missing, with mean times count equal to the
sum of the present values); in `efast.prepare_s3` the members are
reprojected before masking and averaging, while in `call_efast.prepare_s3`
(the module wired by `run.py`) masking and averaging are applied to the
raw members and the composite is reprojected afterwards. -/
theorem c3_theorem :
    (∀ l : List (Option ℚ), (nanmeanList l = none ↔ ∀ x ∈ l, x = none) ∧
      ∀ m, nanmeanList l = some m →
        ((l.filterMap id).length : ℚ) * m = (l.filterMap id).sum) ∧
    (∀ (nb : ℕ) (r : CRaster) (p b : ℕ),
      (nanmeanList (bandsAt nb r p) = none → maskMember nb r p b = r p b) ∧
      ∀ m, nanmeanList (bandsAt nb r p) = some m →
        maskMember nb r p b = if 5 ≤ |m| then none else r p b) ∧
    (∀ (nb : ℕ) (members : List CRaster) (p b : ℕ),
      compositeStack nb members p b =
        nanmeanList (members.map fun r => maskMember nb r p b)) ∧
    (∀ (reproj : CRaster → CRaster) (nb : ℕ) (members : List CRaster),
      prepareS3CompositeEfast reproj nb members =
        compositeStack nb (members.map reproj) ∧
      prepareS3CompositeCall reproj nb members =
        reproj (compositeStack nb members)) := by
  refine ⟨fun l => ⟨nanmeanList_eq_none_iff l,
      fun m h => nanmeanList_some_mul l m h⟩,
    fun nb r p b => ⟨?_, ?_⟩, fun nb members p b => rfl,
    fun reproj nb members => ⟨rfl, rfl⟩⟩
  · intro h
    simp [maskMember, h]
  · intro m h
    simp [maskMember, h]

/-- C3 witness: nanmean of one missing and two present values 1 and 3 is
2, and 2 times the count 2 equals the sum 4. -/
theorem c3_witness :
    nanmeanList [some (1 : ℚ), none, some 3] = some 2 ∧
    ((([some (1 : ℚ), none, some 3].filterMap id).length : ℚ)) * 2 =
      ([some (1 : ℚ), none, some 3].filterMap id).sum := by
  exact ⟨by decide, (c3_theorem.1 [some (1 : ℚ), none, some 3]).2 2 (by decide)⟩

/-- C3 counterexample: with the concrete two-pixel averaging kernel, the
two-member group of `memberA` and `memberB` composites to 2 at pixel 0 in
the mask-then-average-then-reproject order of `call_efast.prepare_s3`, but
to 3 in the reproject-first order the claim describes, so the wired
builder does not compute the claimed reproject-first composite. -/
theorem c3_counterexample :
    prepareS3CompositeCall pairAvg 1 [memberA, memberB] 0 0 = some 2 ∧
    prepareS3CompositeEfast pairAvg 1 [memberA, memberB] 0 0 = some 3 ∧
    prepareS3CompositeCall pairAvg 1 [memberA, memberB] 0 0 ≠
      prepareS3CompositeEfast pairAvg 1 [memberA, memberB] 0 0 := by
  exact ⟨by decide, by decide, by decide⟩

end EfastTool
